import Mathlib

/-!
Shallow embedding of the lipwig SSMP server core (github.com/redbooth/lipwig)
for checking the natural-language specification against the code.

Conventions of the embedding:
* Go bytes are modelled as `Nat` (with explicit `< 256` hypotheses where a
  statement depends on the byte range).
* Go byte slices / strings are `List Nat`.
* The decoder (`ssmp/decoder.go`) is modelled as a pure structure `Dec`
  holding the byte stream and the `s`/`r` cursors; `ensureBuffered n`
  succeeds iff `n` bytes are available past the read cursor (the whole
  input is treated as already buffered; a shortfall yields the latched
  transport error, modelled as `DecErr.endOfStream`).  Reads past the
  write cursor (possible in `decodeBinaryPayload`, whose first
  `ensureBuffered` result the source discards) see the zero bytes of the
  freshly allocated Go buffer, modelled by `List.getD _ _ 0`.
* `Connection.Write` calls performed by handlers are modelled as emitted
  `(target, bytes)` pairs; `Topic.ForAll` skips connections whose closed
  flag is set, exactly as in `server/topic.go`.
* Go maps are modelled as association lists; all map mutations in the
  source first test membership, so key-uniqueness is preserved and
  `List.lookup` / `List.filter` faithfully model map read / delete.
-/

namespace Lipwig

instance {ε α : Type} [DecidableEq ε] [DecidableEq α] :
    DecidableEq (Except ε α) := fun x y =>
  match x, y with
  | .error e, .error e' =>
    if h : e = e' then .isTrue (by rw [h]) else .isFalse (by simp [h])
  | .error _, .ok _ => .isFalse (by simp)
  | .ok _, .error _ => .isFalse (by simp)
  | .ok a, .ok a' =>
    if h : a = a' then .isTrue (by rw [h]) else .isFalse (by simp [h])

abbrev Bytes := List Nat

/-- byte value of `'\n'` -/
def LF : Nat := 10

/-- byte value of `' '` -/
def SP : Nat := 32

/-! ### Decoder constants (ssmp/decoder.go lines 27-37) -/

def CodeLength : Nat := 3
def MaxVerbLength : Nat := 16
def MaxIdentifierLength : Nat := 64
def MaxPayloadLength : Nat := 1024

/-- source name: BinaryPayload prefix length constant (value 2) -/
def BinaryPayloadHdr : Nat := 2

/-- VERB_CHARSET: bytes `'A'..'Z'` (ssmp/decoder.go lines 40-42). -/
def verbCharset (c : Nat) : Bool := 65 ≤ c && c ≤ 90

/-- ID_CHARSET: `a..z | A..Z | 0..9 | . : @ / - _ + = ~`
(ssmp/decoder.go lines 45-50). -/
def idCharset (c : Nat) : Bool :=
  (97 ≤ c && c ≤ 122) || (65 ≤ c && c ≤ 90) || (48 ≤ c && c ≤ 57) ||
  c == 46 || c == 58 || c == 64 || c == 47 || c == 45 ||
  c == 95 || c == 43 || c == 61 || c == 126

/-- Decoder errors: `ErrInvalidMessage`, and the latched transport error
returned by `ensureBuffered` when the source is exhausted. -/
inductive DecErr where
  | invalidMessage
  | endOfStream
deriving DecidableEq

/-- The decoder state: `buf` is the byte stream, `s` the start-of-message
marker, `r` the read cursor (the write cursor is `buf.length`). -/
structure Dec where
  buf : Bytes
  s : Nat
  r : Nat
deriving DecidableEq

/-- `AtEnd` (ssmp/decoder.go lines 93-95): the last consumed byte was LF. -/
def Dec.atEnd (d : Dec) : Bool :=
  decide (d.s < d.r) && (d.buf.getD (d.r - 1) 0 == LF)

/-- Shared shape of the three bounded field-scanning loops in
`DecodeVerb` / `DecodeId` / `decodeTextPayload`: scan at most `fuel` bytes
starting `n` bytes past the read cursor `r`; a byte satisfying `delim`
ends the field (empty fields are invalid), a byte failing `valid` is
invalid, running out of fuel is invalid.  On success, returns the field
bytes and the new read cursor (delimiter consumed). -/
def fieldLoop (delim valid : Nat → Bool) (buf : Bytes) (r : Nat) :
    Nat → Nat → Except DecErr (Bytes × Nat)
  | _, 0 => .error .invalidMessage
  | n, fuel + 1 =>
    if buf.length < r + n + 1 then .error .endOfStream
    else
      let c := buf.getD (r + n) 0
      if delim c then
        if n == 0 then .error .invalidMessage
        else .ok ((buf.drop r).take n, r + n + 1)
      else if valid c then fieldLoop delim valid buf r (n + 1) fuel
      else .error .invalidMessage

/-- delimiter for verbs and identifiers: `' '` or `'\n'`. -/
def isDelim (c : Nat) : Bool := c == SP || c == LF

/-- `DecodeVerb` (ssmp/decoder.go lines 120-142). -/
def Dec.decodeVerb (d : Dec) : Except DecErr (Bytes × Dec) :=
  if d.atEnd then .error .invalidMessage
  else
    match fieldLoop isDelim verbCharset d.buf d.r 0 MaxVerbLength with
    | .error e => .error e
    | .ok (f, r) => .ok (f, { d with r := r })

/-- `DecodeId` (ssmp/decoder.go lines 144-166). -/
def Dec.decodeId (d : Dec) : Except DecErr (Bytes × Dec) :=
  if d.atEnd then .error .invalidMessage
  else
    match fieldLoop isDelim idCharset d.buf d.r 0 MaxIdentifierLength with
    | .error e => .error e
    | .ok (f, r) => .ok (f, { d with r := r })

/-- `decodeTextPayload` (ssmp/decoder.go lines 207-227): terminator is LF
only, bytes `0x00..0x03` are invalid, everything else is payload. -/
def Dec.decodeTextPayload (d : Dec) : Except DecErr (Bytes × Dec) :=
  match fieldLoop (fun c => c == LF) (fun c => decide (3 < c))
      d.buf d.r 0 MaxPayloadLength with
  | .error e => .error e
  | .ok (f, r) => .ok (f, { d with r := r })

/-- `decodeBinaryPayload` (ssmp/decoder.go lines 229-242): reads the
two-byte big-endian header, rejects a length above `MaxPayloadLength`,
requires the byte after the payload run to be LF, and returns the payload
length.  (The source drops the result of its first `ensureBuffered`; the
header bytes are then whatever the zeroed buffer holds, which
`List.getD _ _ 0` reproduces.) -/
def decodeBinaryPayload (buf : Bytes) (r : Nat) : Except DecErr Nat :=
  let n := 1 + (buf.getD r 0) * 256 + buf.getD (r + 1) 0
  if MaxPayloadLength < n then .error .invalidMessage
  else if buf.length < r + n + BinaryPayloadHdr + 1 then .error .endOfStream
  else if buf.getD (r + n + BinaryPayloadHdr) 0 != LF then .error .invalidMessage
  else .ok n

/-- `DecodePayload` (ssmp/decoder.go lines 168-186): peeks the next byte;
`0x00..0x03` selects binary mode (header excluded from the emitted slice),
anything else text mode. -/
def Dec.decodePayload (d : Dec) : Except DecErr (Bytes × Dec) :=
  if d.atEnd then .error .invalidMessage
  else if d.buf.length < d.r + 1 then .error .endOfStream
  else
    let c := d.buf.getD d.r 0
    if c ≤ 3 then
      match decodeBinaryPayload d.buf d.r with
      | .error e => .error e
      | .ok n =>
        .ok ((d.buf.drop (d.r + BinaryPayloadHdr)).take n,
             { d with r := d.r + n + BinaryPayloadHdr + 1 })
    else d.decodeTextPayload

/-- `DecodeCompat` (ssmp/decoder.go lines 189-205): optional identifier,
then optional payload; returns the raw tail (trailing LF excluded). -/
def Dec.decodeCompat (d : Dec) : Except DecErr (Bytes × Dec) :=
  if d.atEnd then .ok ([], d)
  else
    let s := d.r
    let step : Except DecErr Dec :=
      match d.decodeId with
      | .error .endOfStream => .error .endOfStream
      | .error .invalidMessage => .ok d
      | .ok (_, d1) => .ok d1
    match step with
    | .error e => .error e
    | .ok d1 =>
      if d1.atEnd then .ok ((d1.buf.drop s).take (d1.r - 1 - s), d1)
      else
        match d1.decodePayload with
        | .error e => .error e
        | .ok (_, d2) => .ok ((d2.buf.drop s).take (d2.r - 1 - s), d2)


/-! ### Protocol constants (ssmp/ssmp.go, server/const.go) -/

/-- the verb bytes of "LOGIN" -/
def LOGINb : Bytes := [76, 79, 71, 73, 78]
/-- the verb bytes of "SUBSCRIBE" -/
def SUBSCRIBEb : Bytes := [83, 85, 66, 83, 67, 82, 73, 66, 69]
/-- the verb bytes of "UNSUBSCRIBE" -/
def UNSUBSCRIBEb : Bytes := [85, 78, 83, 85, 66, 83, 67, 82, 73, 66, 69]
/-- the verb bytes of "UCAST" -/
def UCASTb : Bytes := [85, 67, 65, 83, 84]
/-- the verb bytes of "MCAST" -/
def MCASTb : Bytes := [77, 67, 65, 83, 84]
/-- the verb bytes of "BCAST" -/
def BCASTb : Bytes := [66, 67, 65, 83, 84]
/-- the verb bytes of "PING" -/
def PINGb : Bytes := [80, 73, 78, 71]
/-- the verb bytes of "PONG" -/
def PONGb : Bytes := [80, 79, 78, 71]
/-- the verb bytes of "CLOSE" -/
def CLOSEb : Bytes := [67, 76, 79, 83, 69]
/-- the verb bytes of "PRESENCE" -/
def PRESENCEb : Bytes := [80, 82, 69, 83, 69, 78, 67, 69]
/-- the reserved anonymous identifier "." -/
def anonymousB : Bytes := [46]

/-- the response bytes "200\n" -/
def respOk : Bytes := [50, 48, 48, 10]
/-- the response bytes "400\n" -/
def respBadRequest : Bytes := [52, 48, 48, 10]
/-- the response bytes "404\n" -/
def respNotFound : Bytes := [52, 48, 52, 10]
/-- the response bytes "405\n" -/
def respNotAllowed : Bytes := [52, 48, 53, 10]
/-- the response bytes "409\n" -/
def respConflict : Bytes := [52, 48, 57, 10]
/-- the response bytes "501\n" -/
def respNotImplemented : Bytes := [53, 48, 49, 10]
/-- the response bytes "000 " -/
def respEvent : Bytes := [48, 48, 48, 32]

/-! ### Dispatch (server/dispatch.go) -/

def fieldTo : Nat := 1
def fieldPayload : Nat := 2
def fieldOption : Nat := 6

/-- The handler table built in `NewDispatcher` (server/dispatch.go lines
28-37), reduced to the field-requirement flags; `none` for unknown verbs. -/
def handlerFlags (v : Bytes) : Option Nat :=
  if v = SUBSCRIBEb then some (fieldTo ||| fieldOption)
  else if v = UNSUBSCRIBEb then some fieldTo
  else if v = UCASTb then some (fieldTo ||| fieldPayload)
  else if v = MCASTb then some (fieldTo ||| fieldPayload)
  else if v = BCASTb then some fieldPayload
  else if v = PINGb then some 0
  else if v = PONGb then some 0
  else if v = CLOSEb then some 0
  else none

/-- The field-decoding phase of `Dispatch` (server/dispatch.go lines
63-77): decode the target identifier when `fieldTo` is set, then the
payload when `fieldPayload` is set, with the `fieldOption` allowance for a
missing optional payload. -/
def decodeFields (f : Nat) (d : Dec) : Except DecErr (Bytes × Bytes × Dec) :=
  let toStep : Except DecErr (Bytes × Dec) :=
    if f &&& fieldTo != 0 then d.decodeId else .ok ([], d)
  match toStep with
  | .error e => .error e
  | .ok (tgt, d1) =>
    if f &&& fieldPayload != 0 then
      if f &&& fieldOption == fieldOption && d1.atEnd then .ok (tgt, [], d1)
      else
        match d1.decodePayload with
        | .error e => .error e
        | .ok (p, d2) => .ok (tgt, p, d2)
    else .ok (tgt, [], d1)

/-- Outcome of one `Dispatch` call: the responses `Dispatch` itself wrote
to the requesting connection, the `(to, payload)` arguments of the handler
invocation when one happened, the boolean result, and the decoder state. -/
structure DispatchOut where
  writes : List Bytes
  invoked : Option (Bytes × Bytes)
  ok : Bool
  dec : Dec
deriving DecidableEq

/-- `Dispatch` (server/dispatch.go lines 47-83): re-login gets `405\n` and
`false`; unknown verbs consume a compat tail and get `501\n`; known verbs
have their fields decoded, and any decode failure or unconsumed bytes
before the terminating LF yield `false` without invoking the handler. -/
def dispatch (d : Dec) (verb : Bytes) : DispatchOut :=
  if verb = LOGINb then ⟨[respNotAllowed], none, false, d⟩
  else
    match handlerFlags verb with
    | none =>
      match d.decodeCompat with
      | .error _ => ⟨[], none, false, d⟩
      | .ok (_, d1) => ⟨[respNotImplemented], none, true, d1⟩
    | some f =>
      match decodeFields f d with
      | .error _ => ⟨[], none, false, d⟩
      | .ok (tgt, p, d1) =>
        if !d1.atEnd then ⟨[], none, false, d1⟩
        else ⟨[], some (tgt, p), true, d1⟩

/-- The read loop's reaction to the `Dispatch` result (server/connection.go
lines 140-145): `true` resets the decoder and keeps the connection open;
`false` sends `400\n` and closes it.  Returns the bytes written and
whether the connection was closed. -/
def readLoopAfter (ok : Bool) : List Bytes × Bool :=
  if ok then ([], false) else ([respBadRequest], true)

/-! ### Topic and registries (server/topic.go, server/server.go) -/

abbrev ConnId := Nat

/-- A topic subscriber map `map[*Connection]bool` (connection identity to
`wantsPresence`), as an association list. -/
abbrev Members := List (ConnId × Bool)

/-- `Topic.Subscribe` (server/topic.go lines 38-46): insert when absent;
returns whether a new subscription was made, and the updated set. -/
def topicSubscribe (m : Members) (c : ConnId) (p : Bool) : Bool × Members :=
  if (m.lookup c).isSome then (false, m)
  else (true, (c, p) :: m)

/-- The topic registry `map[string]*Topic`, each topic carried as its
subscriber map keyed by name. -/
abbrev Registry := List (Bytes × Members)

/-- `TopicManager.GetOrCreateTopic` (server/topic.go lines 268-277):
creates an empty topic when the name is absent. -/
def getOrCreateTopic (ts : Registry) (n : Bytes) : Registry :=
  if (ts.lookup n).isSome then ts else (n, []) :: ts

/-- Replace the subscriber map of a registered topic. -/
def setTopic (ts : Registry) (n : Bytes) (m : Members) : Registry :=
  ts.map (fun e => if e.1 = n then (n, m) else e)

/-- `TopicManager.RemoveTopic` (server/topic.go lines 286-290). -/
def removeTopic (ts : Registry) (n : Bytes) : Registry :=
  ts.filter (fun e => e.1 != n)

/-- `Topic.Unsubscribe` acting on a registered topic (server/topic.go
lines 51-60): delete the connection, and self-harvest from the registry
when the subscriber set becomes empty. -/
def unsubTopic (ts : Registry) (n : Bytes) (c : ConnId) : Registry :=
  match ts.lookup n with
  | none => ts
  | some m =>
    let m1 := m.filter (fun e => e.1 != c)
    if m1 = [] then removeTopic ts n else setTopic ts n m1

/-- Server-side state tracked by the claims: the topic registry, every
connection subscription map `map[string]*Topic` (kept as the topic names;
in all states the operations below produce, a subscribed name resolves
through the registry to the very topic object the connection holds, so
the indirection through names is faithful), and the set of connections
whose closed flag is 1. -/
structure SrvState where
  topics : Registry
  subs : List (ConnId × List Bytes)
  closedC : List ConnId
deriving DecidableEq

def initialState : SrvState := ⟨[], [], []⟩

def subsOf (s : SrvState) (c : ConnId) : List Bytes :=
  (s.subs.lookup c).getD []

/-- `Connection.Subscribe` effect on the subscription map
(server/connection.go lines 85-90): `c.sub[t.Name] = t`. -/
def addSubName (l : List Bytes) (n : Bytes) : List Bytes :=
  if l.contains n then l else n :: l

/-- Update (creating the entry if missing) a connection subscription map. -/
def setSubs (ss : List (ConnId × List Bytes)) (c : ConnId)
    (f : List Bytes → List Bytes) : List (ConnId × List Bytes) :=
  if (ss.lookup c).isSome then
    ss.map (fun e => if e.1 = c then (c, f e.2) else e)
  else (c, f []) :: ss

/-- Update an existing connection subscription map entry
(`Connection.Unsubscribe` does nothing when the map is nil). -/
def updateSubs (ss : List (ConnId × List Bytes)) (c : ConnId)
    (f : List Bytes → List Bytes) : List (ConnId × List Bytes) :=
  ss.map (fun e => if e.1 = c then (c, f e.2) else e)

/-- The dispatcher-level operations that mutate the topic registry and the
subscription maps. -/
inductive Op where
  | subscribe (c : ConnId) (n : Bytes) (p : Bool)
  | unsubscribe (c : ConnId) (n : Bytes)
  | close (c : ConnId)
deriving DecidableEq

/-- One dispatcher-level step:

* `subscribe` is the registry effect of `onSubscribe` (server/dispatch.go
  lines 134-142): `GetOrCreateTopic`, then `Topic.Subscribe`; on success
  also `Connection.Subscribe`.
* `unsubscribe` is the registry effect of `onUnsubscribe`
  (server/dispatch.go lines 196-201): `GetTopic`; when present,
  `Topic.Unsubscribe` (which always deletes and self-harvests), and on a
  `true` result also `Connection.Unsubscribe`.
* `close` is `Connection.Close` (server/connection.go lines 176-184):
  compare-and-set of the closed flag; on the 0-to-1 transition,
  `Topic.Unsubscribe` from every topic in the subscription map.  The
  subscription map itself is left untouched by the source. -/
def applyOp (s : SrvState) : Op → SrvState
  | .subscribe c n p =>
    let ts := getOrCreateTopic s.topics n
    let m := (ts.lookup n).getD []
    match topicSubscribe m c p with
    | (false, _) => { s with topics := ts }
    | (true, m1) =>
      { s with topics := setTopic ts n m1,
               subs := setSubs s.subs c (fun l => addSubName l n) }
  | .unsubscribe c n =>
    match s.topics.lookup n with
    | none => s
    | some m =>
      let ts1 := unsubTopic s.topics n c
      if (m.lookup c).isSome then
        { s with topics := ts1,
                 subs := updateSubs s.subs c (fun l => l.filter (fun x => x != n)) }
      else { s with topics := ts1 }
  | .close c =>
    if s.closedC.contains c then s
    else
      { s with
          topics := (subsOf s c).foldl (fun ts n => unsubTopic ts n c) s.topics,
          closedC := c :: s.closedC }

/-- States reachable from `initialState` by dispatcher-level operations. -/
def run (ops : List Op) : SrvState :=
  ops.foldl applyOp initialState

/-- The registry invariant of spec section 8: every resident topic has at
least one subscriber. -/
def RegInv (ts : Registry) : Prop :=
  ∀ n m, ts.lookup n = some m → m ≠ []

/-! ### Event fan-out (server/dispatch.go, server/connection.go) -/

/-- The visitor of `Connection.Broadcast` over one topic subscriber set
(server/connection.go lines 107-112), with `Topic.ForAll` skipping closed
connections (server/topic.go lines 63-71): skip self and already-visited
connections, otherwise mark visited and write.  Returns the updated
visited set and the write targets in visit order. -/
def bcastVisit (self : ConnId) (closedOf : ConnId → Bool) :
    Members → List ConnId → List ConnId × List ConnId
  | [], v => (v, [])
  | (cc, _) :: rest, v =>
    if closedOf cc then bcastVisit self closedOf rest v
    else if cc != self && !v.contains cc then
      let r := bcastVisit self closedOf rest (cc :: v)
      (r.1, cc :: r.2)
    else bcastVisit self closedOf rest v

/-- `Connection.Broadcast` (server/connection.go lines 104-114): dedup
fan-out over the subscription map topic sets; write targets in order. -/
def bcastTargets (self : ConnId) (closedOf : ConnId → Bool) :
    List Members → List ConnId → List ConnId
  | [], _ => []
  | m :: rest, v =>
    let r := bcastVisit self closedOf m v
    r.2 ++ bcastTargets self closedOf rest r.1

/-- `onBcast` (server/dispatch.go lines 218-233): anonymous senders get
`405\n` and nothing else happens; otherwise the event
`000 <user> <raw>` goes through `Broadcast` and the sender gets `200\n`.
Result: (writes to the sender, event writes as (target, bytes)). -/
def onBcast (user : Bytes) (self : ConnId) (closedOf : ConnId → Bool)
    (topicSets : List Members) (s : Bytes) :
    List Bytes × List (ConnId × Bytes) :=
  if user = anonymousB then ([respNotAllowed], [])
  else
    let event := respEvent ++ user ++ [SP] ++ s
    ([respOk],
     (bcastTargets self closedOf topicSets []).map (fun cc => (cc, event)))

/-- `onMcast` (server/dispatch.go lines 253-272): look the topic up; when
present, write the event to every member `ForAll` visits except the
sender; reply `200\n` in every case. -/
def onMcast (user : Bytes) (self : ConnId) (closedOf : ConnId → Bool)
    (ts : Registry) (n : Bytes) (s : Bytes) :
    List Bytes × List (ConnId × Bytes) :=
  match ts.lookup n with
  | none => ([respOk], [])
  | some m =>
    let msg := respEvent ++ user ++ [SP] ++ s
    ([respOk],
     (m.filter (fun e => !closedOf e.1 && e.1 != self)).map (fun e => (e.1, msg)))

/-! ### Association-list lemmas -/

theorem lookup_filter_ne {α β : Type} [BEq α] [LawfulBEq α] [DecidableEq α]
    (l : List (α × β)) (a : α) :
    (l.filter (fun e => e.1 != a)).lookup a = none := by
  induction l with
  | nil => rfl
  | cons e rest ih =>
    obtain ⟨k, v⟩ := e
    by_cases h : k = a
    · have : ((k, v).1 != a) = false := by simp [h]
      simp only [List.filter_cons, this, if_false]
      exact ih
    · have hne : ((k, v).1 != a) = true := by simp [h]
      have hba : (a == k) = false := by simp [Ne.symm h]
      simp only [List.filter_cons, hne, if_true]
      simp only [List.lookup, hba]
      exact ih

theorem lookup_filter_ne_other {α β : Type} [BEq α] [LawfulBEq α] [DecidableEq α]
    (l : List (α × β)) (a b : α) (h : b ≠ a) :
    (l.filter (fun e => e.1 != a)).lookup b = l.lookup b := by
  induction l with
  | nil => rfl
  | cons e rest ih =>
    obtain ⟨k, v⟩ := e
    by_cases he : k = a
    · have hdrop : ((k, v).1 != a) = false := by simp [he]
      have hb : (b == k) = false := by simp [he, h]
      simp only [List.filter_cons, hdrop, if_false, List.lookup, hb]
      exact ih
    · have hne : ((k, v).1 != a) = true := by simp [he]
      by_cases hb : b = k
      · have : (b == k) = true := by simp [hb]
        simp only [List.filter_cons, hne, if_true, List.lookup, this]
      · have hbb : (b == k) = false := by simp [hb]
        simp only [List.filter_cons, hne, if_true, List.lookup, hbb]
        exact ih

theorem lookup_map_set {α β : Type} [BEq α] [LawfulBEq α] [DecidableEq α]
    (l : List (α × β)) (a : α) (m : β) :
    (l.map (fun e => if e.1 = a then (a, m) else e)).lookup a =
      (l.lookup a).map (fun _ => m) := by
  induction l with
  | nil => rfl
  | cons e rest ih =>
    obtain ⟨k, v⟩ := e
    simp only [List.map_cons]
    by_cases he : (k, v).1 = a
    · rw [if_pos he]
      have h1 : (a == a) = true := by simp
      have h2 : (a == k) = true := by simp [he.symm]
      simp only [List.lookup, h1, h2]
      rfl
    · rw [if_neg he]
      have hba : (a == k) = false := by
        simp only [Prod.fst] at he
        simp [Ne.symm he]
      simp only [List.lookup, hba]
      exact ih

theorem lookup_map_set_other {α β : Type} [BEq α] [LawfulBEq α] [DecidableEq α]
    (l : List (α × β)) (a b : α) (m : β) (h : b ≠ a) :
    (l.map (fun e => if e.1 = a then (a, m) else e)).lookup b = l.lookup b := by
  induction l with
  | nil => rfl
  | cons e rest ih =>
    obtain ⟨k, v⟩ := e
    simp only [List.map_cons]
    by_cases he : (k, v).1 = a
    · rw [if_pos he]
      simp only [Prod.fst] at he
      have hb1 : (b == a) = false := by simp [h]
      have hb2 : (b == k) = false := by rw [he]; exact hb1
      simp only [List.lookup, hb1, hb2]
      exact ih
    · rw [if_neg he]
      simp only [Prod.fst] at he
      by_cases hb : b = k
      · have : (b == k) = true := by simp [hb]
        simp only [List.lookup, this]
      · have hbb : (b == k) = false := by simp [hb]
        simp only [List.lookup, hbb]
        exact ih

/-! ### Registry lookup lemmas -/

theorem lookup_removeTopic_self (ts : Registry) (n : Bytes) :
    (removeTopic ts n).lookup n = none :=
  lookup_filter_ne ts n

theorem lookup_removeTopic_other (ts : Registry) (n n' : Bytes) (h : n' ≠ n) :
    (removeTopic ts n).lookup n' = ts.lookup n' :=
  lookup_filter_ne_other ts n n' h

theorem lookup_setTopic_self (ts : Registry) (n : Bytes) (m : Members) :
    (setTopic ts n m).lookup n = (ts.lookup n).map (fun _ => m) :=
  lookup_map_set ts n m

theorem lookup_setTopic_other (ts : Registry) (n n' : Bytes) (m : Members)
    (h : n' ≠ n) : (setTopic ts n m).lookup n' = ts.lookup n' :=
  lookup_map_set_other ts n n' m h

theorem lookup_getOrCreate_self (ts : Registry) (n : Bytes) :
    (getOrCreateTopic ts n).lookup n = some ((ts.lookup n).getD []) := by
  unfold getOrCreateTopic
  cases h : ts.lookup n with
  | none =>
    simp only [h, Option.isSome_none, Bool.false_eq_true, if_false,
      Option.getD_none]
    simp [List.lookup]
  | some m => simp [h]

theorem lookup_getOrCreate_other (ts : Registry) (n n' : Bytes) (h : n' ≠ n) :
    (getOrCreateTopic ts n).lookup n' = ts.lookup n' := by
  unfold getOrCreateTopic
  cases hts : ts.lookup n with
  | none =>
    have : (n' == n) = false := by simp [h]
    simp [List.lookup, this]
  | some m => simp

/-! ### Preservation of the registry invariant -/

theorem regInv_unsubTopic {ts : Registry} (h : RegInv ts) (n : Bytes)
    (c : ConnId) : RegInv (unsubTopic ts n c) := by
  intro n' m' hl
  unfold unsubTopic at hl
  cases hts : ts.lookup n with
  | none => rw [hts] at hl; exact h n' m' hl
  | some m =>
    rw [hts] at hl
    dsimp only at hl
    by_cases hemp : m.filter (fun e => e.1 != c) = []
    · rw [if_pos hemp] at hl
      by_cases hne : n' = n
      · subst hne; rw [lookup_removeTopic_self] at hl; cases hl
      · rw [lookup_removeTopic_other _ _ _ hne] at hl; exact h n' m' hl
    · rw [if_neg hemp] at hl
      by_cases hne : n' = n
      · subst hne
        rw [lookup_setTopic_self, hts] at hl
        simp only [Option.map_some'] at hl
        cases hl
        exact hemp
      · rw [lookup_setTopic_other _ _ _ _ hne] at hl; exact h n' m' hl

theorem regInv_foldl_unsub {ts : Registry} (h : RegInv ts) (c : ConnId)
    (L : List Bytes) :
    RegInv (L.foldl (fun ts n => unsubTopic ts n c) ts) := by
  induction L generalizing ts with
  | nil => exact h
  | cons n L ih => exact ih (regInv_unsubTopic h n c)

theorem regInv_applyOp {s : SrvState} (h : RegInv s.topics) (op : Op) :
    RegInv (applyOp s op).topics := by
  cases op with
  | subscribe c n p =>
    unfold applyOp
    dsimp only
    by_cases hc : ((((getOrCreateTopic s.topics n).lookup n).getD []).lookup c).isSome
    · have hts : topicSubscribe (((getOrCreateTopic s.topics n).lookup n).getD []) c p
          = (false, ((getOrCreateTopic s.topics n).lookup n).getD []) := by
        unfold topicSubscribe; rw [if_pos hc]
      rw [hts]
      dsimp only
      intro n' m' hl
      by_cases hne : n' = n
      · subst hne
        rw [lookup_getOrCreate_self] at hl
        cases hl
        intro hnil
        rw [lookup_getOrCreate_self] at hc
        simp only [Option.getD_some] at hc
        rw [hnil] at hc
        simp [List.lookup] at hc
      · rw [lookup_getOrCreate_other _ _ _ hne] at hl
        exact h n' m' hl
    · have hts : topicSubscribe (((getOrCreateTopic s.topics n).lookup n).getD []) c p
          = (true, (c, p) :: (((getOrCreateTopic s.topics n).lookup n).getD [])) := by
        unfold topicSubscribe; rw [if_neg hc]
      rw [hts]
      dsimp only
      intro n' m' hl
      by_cases hne : n' = n
      · subst hne
        rw [lookup_setTopic_self, lookup_getOrCreate_self] at hl
        simp only [Option.map_some'] at hl
        cases hl
        simp
      · rw [lookup_setTopic_other _ _ _ _ hne,
          lookup_getOrCreate_other _ _ _ hne] at hl
        exact h n' m' hl
  | unsubscribe c n =>
    unfold applyOp
    dsimp only
    cases hts : s.topics.lookup n with
    | none => exact h
    | some m =>
      dsimp only
      by_cases hc : (m.lookup c).isSome
      · rw [if_pos hc]; exact regInv_unsubTopic h n c
      · rw [if_neg hc]; exact regInv_unsubTopic h n c
  | close c =>
    unfold applyOp
    dsimp only
    by_cases hcl : s.closedC.contains c
    · rw [if_pos hcl]; exact h
    · rw [if_neg hcl]; exact regInv_foldl_unsub h c (subsOf s c)

/-! ### Claim C4 -/

/-- C4 (amended): in every state reachable from the initial state by the
dispatcher-level operations — the SUBSCRIBE handler's GetOrCreateTopic
followed immediately by Topic.Subscribe, the UNSUBSCRIBE handler's
GetTopic/Unsubscribe, and Connection.Close — every topic present in the
topic registry has a non-empty subscriber set.  (The claim as stated, over
arbitrary sequences that include a bare GetOrCreateTopic, is false: see
the counterexample.) -/
theorem C4_registry_topics_nonempty (ops : List Op) :
    RegInv (run ops).topics := by
  have step : ∀ (l : List Op) (s : SrvState), RegInv s.topics →
      RegInv (l.foldl applyOp s).topics := by
    intro l
    induction l with
    | nil => intro s hs; exact hs
    | cons op l ih => intro s hs; exact ih _ (regInv_applyOp hs op)
  refine step ops initialState ?_
  intro n m hl
  exact Option.noConfusion hl

/-- C4 counterexample: the claim quantifies over arbitrary sequences of
the listed operations, GetOrCreateTopic among them; applying
GetOrCreateTopic alone to the empty registry leaves topic [99] present in
the registry with an empty subscriber set, so "present iff the subscriber
set is non-empty" fails in a reachable state. -/
theorem C4_counterexample :
    (getOrCreateTopic ([] : Registry) [99]).lookup [99] = some [] ∧
    ¬ ((((getOrCreateTopic ([] : Registry) [99]).lookup [99]).isSome = true) ↔
        (((getOrCreateTopic ([] : Registry) [99]).lookup [99]).getD [] ≠ [])) := by
  constructor
  · decide
  · decide

theorem C4_witness :
    (run [Op.subscribe 1 [99] true]).topics.lookup [99] ≠ some [] :=
  fun h => C4_registry_topics_nonempty [Op.subscribe 1 [99] true] [99] [] h rfl

/-! ### Claim C8 -/

/-- C8: Topic.Subscribe returns true and inserts the connection with the
given presence flag when it was not a member, and returns false leaving
the subscriber map — member set and stored presence flag alike —
unchanged when it was already a member. -/
theorem C8_topicSubscribe (m : Members) (c : ConnId) (p : Bool) :
    (m.lookup c = none → topicSubscribe m c p = (true, (c, p) :: m)) ∧
    (∀ q, m.lookup c = some q → topicSubscribe m c p = (false, m)) := by
  constructor
  · intro h; unfold topicSubscribe; rw [h]; rfl
  · intro q h; unfold topicSubscribe; rw [h]; rfl

theorem C8_witness :
    topicSubscribe [] 1 true = (true, [(1, true)]) ∧
    topicSubscribe [(1, true)] 1 false = (false, [(1, true)]) :=
  ⟨(C8_topicSubscribe [] 1 true).1 rfl,
   (C8_topicSubscribe [(1, true)] 1 false).2 true rfl⟩

/-! ### Claim C1 -/

/-- C1 (amended): dispatching a LOGIN verb on a logged-in connection
writes `405\n` but Dispatch returns false, so the read loop then writes
`400\n` and closes the connection; subsequent requests are not
processed. -/
theorem C1_relogin_closes (d : Dec) :
    dispatch d LOGINb = ⟨[respNotAllowed], none, false, d⟩ ∧
    readLoopAfter (dispatch d LOGINb).ok = ([respBadRequest], true) := by
  have h : dispatch d LOGINb = ⟨[respNotAllowed], none, false, d⟩ := by
    unfold dispatch; rw [if_pos rfl]
  exact ⟨h, by rw [h]; rfl⟩

/-- C1 counterexample: on the concrete connection state that has just
decoded the verb of "LOGIN\n", Dispatch writes `405\n` yet the read loop
then writes `400\n` and closes the connection — refuting "the connection
continues (it is not closed)". -/
theorem C1_counterexample :
    (dispatch ⟨LOGINb ++ [LF], 0, 6⟩ LOGINb).writes = [respNotAllowed] ∧
    readLoopAfter (dispatch ⟨LOGINb ++ [LF], 0, 6⟩ LOGINb).ok =
      ([respBadRequest], true) := by decide

/-! ### Claim C9 -/

/-- C9: for every known verb, when the expected fields all decode
successfully but unconsumed bytes remain before the terminating LF,
Dispatch returns false without invoking the handler, and the read loop
then sends `400\n` and closes the connection. -/
theorem C9_trailing_bytes (d d1 : Dec) (verb tgt p : Bytes) (f : Nat)
    (hknown : handlerFlags verb = some f)
    (hfields : decodeFields f d = .ok (tgt, p, d1))
    (hend : d1.atEnd = false) :
    dispatch d verb = ⟨[], none, false, d1⟩ ∧
    readLoopAfter (dispatch d verb).ok = ([respBadRequest], true) := by
  have hL : ¬ (verb = LOGINb) := by
    intro h
    rw [h] at hknown
    have hnone : handlerFlags LOGINb = none := by decide
    rw [hnone] at hknown
    cases hknown
  have hd : dispatch d verb = ⟨[], none, false, d1⟩ := by
    unfold dispatch
    rw [if_neg hL, hknown]
    dsimp only
    rw [hfields]
    dsimp only
    rw [hend]
    rfl
  exact ⟨hd, by rw [hd]; rfl⟩

theorem C9_witness :
    dispatch ⟨[80, 73, 78, 71, 32, 88, 10], 0, 5⟩ PINGb =
      ⟨[], none, false, ⟨[80, 73, 78, 71, 32, 88, 10], 0, 5⟩⟩ ∧
    readLoopAfter (dispatch ⟨[80, 73, 78, 71, 32, 88, 10], 0, 5⟩ PINGb).ok =
      ([respBadRequest], true) :=
  C9_trailing_bytes ⟨[80, 73, 78, 71, 32, 88, 10], 0, 5⟩
    ⟨[80, 73, 78, 71, 32, 88, 10], 0, 5⟩ PINGb [] [] 0
    (by decide) (by decide) (by decide)

/-! ### Claim C3 -/

theorem lookup_unsubTopic_c_none (ts : Registry) (n : Bytes) (c : ConnId)
    (m' : Members) (hl : (unsubTopic ts n c).lookup n = some m') :
    m'.lookup c = none := by
  unfold unsubTopic at hl
  cases hts : ts.lookup n with
  | none =>
    rw [hts] at hl
    dsimp only at hl
    rw [hts] at hl
    exact Option.noConfusion hl
  | some m =>
    rw [hts] at hl
    dsimp only at hl
    by_cases hemp : m.filter (fun e => e.1 != c) = []
    · rw [if_pos hemp, lookup_removeTopic_self] at hl
      exact Option.noConfusion hl
    · rw [if_neg hemp, lookup_setTopic_self, hts] at hl
      simp only [Option.map_some'] at hl
      cases hl
      exact lookup_filter_ne m c

theorem lookup_unsubTopic_other_name (ts : Registry) (n : Bytes) (c : ConnId)
    (n' : Bytes) (h : n' ≠ n) :
    (unsubTopic ts n c).lookup n' = ts.lookup n' := by
  unfold unsubTopic
  cases hts : ts.lookup n with
  | none => rfl
  | some m =>
    dsimp only
    by_cases hemp : m.filter (fun e => e.1 != c) = []
    · rw [if_pos hemp]; exact lookup_removeTopic_other ts n n' h
    · rw [if_neg hemp]; exact lookup_setTopic_other ts n n' _ h

theorem cfree_unsubTopic (ts : Registry) (n' : Bytes) (c : ConnId) (n : Bytes)
    (h : ∀ m', ts.lookup n = some m' → m'.lookup c = none) :
    ∀ m', (unsubTopic ts n' c).lookup n = some m' → m'.lookup c = none := by
  intro m' hl
  by_cases hne : n = n'
  · subst hne; exact lookup_unsubTopic_c_none ts n c m' hl
  · rw [lookup_unsubTopic_other_name ts n' c n hne] at hl; exact h m' hl

theorem cfree_foldl_preserve (c : ConnId) (n : Bytes) (L : List Bytes) :
    ∀ (ts : Registry), (∀ m', ts.lookup n = some m' → m'.lookup c = none) →
    ∀ m', (L.foldl (fun ts n => unsubTopic ts n c) ts).lookup n = some m' →
      m'.lookup c = none := by
  induction L with
  | nil => intro ts h; exact h
  | cons b L ih =>
    intro ts h
    rw [List.foldl_cons]
    exact ih _ (cfree_unsubTopic ts b c n h)

theorem cfree_foldl_unsub (c : ConnId) (L : List Bytes) (ts : Registry)
    (n : Bytes) (hmem : n ∈ L) :
    ∀ m', (L.foldl (fun ts n => unsubTopic ts n c) ts).lookup n = some m' →
      m'.lookup c = none := by
  induction L generalizing ts with
  | nil => cases hmem
  | cons a L ih =>
    intro m' hl
    rw [List.foldl_cons] at hl
    by_cases hn : n ∈ L
    · exact ih _ hn m' hl
    · have hna : n = a := by
        cases hmem with
        | head => rfl
        | tail _ h => exact absurd h hn
      subst hna
      exact cfree_foldl_preserve c n L (unsubTopic ts n c)
        (fun m' h => lookup_unsubTopic_c_none ts n c m' h) m' hl

/-- C3 (amended): after `Close()` completes its 0-to-1 transition the
connection has been removed from the subscriber set of every topic in its
subscription map, and a second `Close()` changes nothing — but the
connection's own subscription mapping is left in place, not emptied (the
source never clears `c.sub`; see the counterexample). -/
theorem C3_close_effect (s : SrvState) (c : ConnId)
    (hopen : s.closedC.contains c = false) :
    (∀ n, n ∈ subsOf s c → ∀ m',
        (applyOp s (Op.close c)).topics.lookup n = some m' →
          m'.lookup c = none) ∧
    (applyOp s (Op.close c)).subs = s.subs ∧
    applyOp (applyOp s (Op.close c)) (Op.close c) = applyOp s (Op.close c) := by
  have hnc : ¬ (s.closedC.contains c = true) := by rw [hopen]; simp
  have happ : applyOp s (Op.close c) =
      { s with
          topics := (subsOf s c).foldl (fun ts n => unsubTopic ts n c) s.topics,
          closedC := c :: s.closedC } := by
    unfold applyOp; dsimp only; rw [if_neg hnc]
  refine ⟨?_, ?_, ?_⟩
  · intro n hmem m' hl
    rw [happ] at hl
    exact cfree_foldl_unsub c (subsOf s c) s.topics n hmem m' hl
  · rw [happ]
  · rw [happ]
    have hcon : ((c :: s.closedC).contains c = true) := by simp
    unfold applyOp
    dsimp only
    rw [if_pos hcon]

/-- C3 counterexample: in the concrete state where connection 1 is
subscribed to topic [99], `Close()` leaves the subscription mapping still
holding the topic name — it is not emptied. -/
theorem C3_counterexample :
    (applyOp (run [Op.subscribe 1 [99] true]) (Op.close 1)).closedC = [1] ∧
    (applyOp (run [Op.subscribe 1 [99] true]) (Op.close 1)).subs.lookup 1 =
      some [[99]] ∧
    some ([[99]] : List Bytes) ≠ some ([] : List Bytes) := by
  exact ⟨by decide, by decide, by decide⟩

theorem C3_witness :
    ([((2 : ConnId), true)] : Members).lookup 1 = none ∧
    (applyOp (run [Op.subscribe 2 [99] true, Op.subscribe 1 [99] false])
        (Op.close 1)).subs =
      (run [Op.subscribe 2 [99] true, Op.subscribe 1 [99] false]).subs :=
  ⟨(C3_close_effect (run [Op.subscribe 2 [99] true, Op.subscribe 1 [99] false])
        1 (by decide)).1 [99] (by decide) [(2, true)] (by decide),
   (C3_close_effect (run [Op.subscribe 2 [99] true, Op.subscribe 1 [99] false])
        1 (by decide)).2.1⟩

/-! ### Claim C6 -/

theorem bcastVisit_spec (self : ConnId) (closedOf : ConnId → Bool)
    (ms : Members) : ∀ (v : List ConnId),
    (∀ x, x ∈ (bcastVisit self closedOf ms v).2 ↔
      (closedOf x = false ∧ x ≠ self ∧ x ∉ v ∧ x ∈ ms.map Prod.fst)) ∧
    (∀ x, x ∈ (bcastVisit self closedOf ms v).1 ↔
      (x ∈ (bcastVisit self closedOf ms v).2 ∨ x ∈ v)) ∧
    (bcastVisit self closedOf ms v).2.Nodup := by
  induction ms with
  | nil =>
    intro v
    refine ⟨?_, ?_, ?_⟩ <;> simp [bcastVisit]
  | cons e rest ih =>
    intro v
    obtain ⟨cc, pp⟩ := e
    by_cases hcl : closedOf cc = true
    · have hstep : bcastVisit self closedOf ((cc, pp) :: rest) v =
          bcastVisit self closedOf rest v := by
        simp only [bcastVisit]
        rw [if_pos hcl]
      rw [hstep]
      refine ⟨?_, (ih v).2.1, (ih v).2.2⟩
      intro x
      rw [(ih v).1 x]
      simp only [List.map_cons, List.mem_cons]
      constructor
      · rintro ⟨h1, h2, h3, h4⟩
        exact ⟨h1, h2, h3, Or.inr h4⟩
      · rintro ⟨h1, h2, h3, h4⟩
        refine ⟨h1, h2, h3, ?_⟩
        rcases h4 with h4 | h4
        · subst h4; rw [h1] at hcl; cases hcl
        · exact h4
    · replace hcl : closedOf cc = false := by
        cases h : closedOf cc with
        | false => rfl
        | true => exact absurd h hcl
      by_cases hw : (cc != self && !v.contains cc) = true
      · have hparts : cc ≠ self ∧ cc ∉ v := by simpa using hw
        have hself : cc ≠ self := hparts.1
        have hnv : cc ∉ v := hparts.2
        have hstep : bcastVisit self closedOf ((cc, pp) :: rest) v =
            ((bcastVisit self closedOf rest (cc :: v)).1,
              cc :: (bcastVisit self closedOf rest (cc :: v)).2) := by
          simp only [bcastVisit]
          rw [if_neg (by simp [hcl]), if_pos hw]
        rw [hstep]
        obtain ⟨ihw, ihv, ihn⟩ := ih (cc :: v)
        refine ⟨?_, ?_, ?_⟩
        · intro x
          simp only [List.mem_cons, List.map_cons]
          constructor
          · rintro (rfl | hx)
            · exact ⟨hcl, hself, hnv, Or.inl rfl⟩
            · obtain ⟨h1, h2, h3, h4⟩ := (ihw x).mp hx
              have h3x : x ∉ v := fun hv => h3 (List.mem_cons_of_mem _ hv)
              exact ⟨h1, h2, h3x, Or.inr h4⟩
          · rintro ⟨h1, h2, h3, (rfl | h4)⟩
            · exact Or.inl rfl
            · by_cases hxc : x = cc
              · exact Or.inl hxc
              · refine Or.inr ((ihw x).mpr ⟨h1, h2, ?_, h4⟩)
                intro hx
                rcases List.mem_cons.mp hx with h | h
                · exact hxc h
                · exact h3 h
        · intro x
          rw [ihv x]
          simp only [List.mem_cons]
          constructor
          · rintro (hx | hx)
            · exact Or.inl (Or.inr hx)
            · rcases hx with h | h
              · exact Or.inl (Or.inl h)
              · exact Or.inr h
          · rintro (hx | hx)
            · rcases hx with h | h
              · subst h; exact Or.inr (Or.inl rfl)
              · exact Or.inl h
            · exact Or.inr (Or.inr hx)
        · refine List.nodup_cons.mpr ⟨?_, ihn⟩
          intro hx
          exact ((ihw cc).mp hx).2.2.1 (List.mem_cons_self _ _)
      · have hsv : cc = self ∨ cc ∈ v := by
          by_contra hco
          push_neg at hco
          apply hw
          simp [hco.1, hco.2]
        have hstep : bcastVisit self closedOf ((cc, pp) :: rest) v =
            bcastVisit self closedOf rest v := by
          simp only [bcastVisit]
          rw [if_neg (by simp [hcl]), if_neg hw]
        rw [hstep]
        refine ⟨?_, (ih v).2.1, (ih v).2.2⟩
        intro x
        rw [(ih v).1 x]
        simp only [List.map_cons, List.mem_cons]
        constructor
        · rintro ⟨h1, h2, h3, h4⟩
          exact ⟨h1, h2, h3, Or.inr h4⟩
        · rintro ⟨h1, h2, h3, h4⟩
          refine ⟨h1, h2, h3, ?_⟩
          rcases h4 with h4 | h4
          · subst h4
            rcases hsv with h | h
            · exact absurd h h2
            · exact absurd h h3
          · exact h4

theorem bcastTargets_spec (self : ConnId) (closedOf : ConnId → Bool)
    (ts : List Members) : ∀ (v : List ConnId),
    (∀ x, x ∈ bcastTargets self closedOf ts v ↔
      (closedOf x = false ∧ x ≠ self ∧ x ∉ v ∧
        ∃ m ∈ ts, x ∈ m.map Prod.fst)) ∧
    (bcastTargets self closedOf ts v).Nodup := by
  induction ts with
  | nil =>
    intro v
    refine ⟨?_, ?_⟩ <;> simp [bcastTargets]
  | cons m rest ih =>
    intro v
    have hstep : bcastTargets self closedOf (m :: rest) v =
        (bcastVisit self closedOf m v).2 ++
          bcastTargets self closedOf rest (bcastVisit self closedOf m v).1 := by
      simp only [bcastTargets]
    rw [hstep]
    obtain ⟨vw, vv, vn⟩ := bcastVisit_spec self closedOf m v
    obtain ⟨iw, inod⟩ := ih (bcastVisit self closedOf m v).1
    refine ⟨?_, ?_⟩
    · intro x
      simp only [List.mem_append]
      rw [vw x, iw x]
      constructor
      · rintro (⟨h1, h2, h3, h4⟩ | ⟨h1, h2, h3, h4⟩)
        · exact ⟨h1, h2, h3, m, List.mem_cons_self _ _, h4⟩
        · have h3v : x ∉ v := fun hv => h3 ((vv x).mpr (Or.inr hv))
          obtain ⟨mm, hmm, hxm⟩ := h4
          exact ⟨h1, h2, h3v, mm, List.mem_cons_of_mem _ hmm, hxm⟩
      · rintro ⟨h1, h2, h3, mm, hmm, hxm⟩
        rcases List.mem_cons.mp hmm with rfl | hmm
        · exact Or.inl ⟨h1, h2, h3, hxm⟩
        · by_cases hwv : x ∈ (bcastVisit self closedOf m v).2
          · exact Or.inl ((vw x).mp hwv)
          · refine Or.inr ⟨h1, h2, ?_, mm, hmm, hxm⟩
            intro hvis
            rcases (vv x).mp hvis with h | h
            · exact hwv h
            · exact h3 h
    · refine List.Nodup.append vn inod ?_
      intro x hx1 hx2
      exact ((iw x).mp hx2).2.2.1 ((vv x).mpr (Or.inl hx1))

/-- C6: for a BCAST whose raw message is `BCAST <p>\n`: an anonymous
sender gets `405\n` and no event is emitted; otherwise the sender gets
`200\n`, every emitted write carries exactly the event bytes
`000 <user> BCAST <p>\n`, and each open connection receives the event
exactly once iff it is distinct from the sender and belongs to the
set-union of the subscriber sets of the sender's topics — never twice,
even when it shares several topics with the sender. -/
theorem C6_broadcast (user : Bytes) (self : ConnId) (closedOf : ConnId → Bool)
    (topicSets : List Members) (p : Bytes) :
    (user = anonymousB →
      onBcast user self closedOf topicSets (BCASTb ++ [SP] ++ p ++ [LF]) =
        ([respNotAllowed], [])) ∧
    (user ≠ anonymousB →
      (onBcast user self closedOf topicSets
          (BCASTb ++ [SP] ++ p ++ [LF])).1 = [respOk] ∧
      (∀ e ∈ (onBcast user self closedOf topicSets
          (BCASTb ++ [SP] ++ p ++ [LF])).2,
        e.2 = respEvent ++ user ++ [SP] ++ (BCASTb ++ [SP] ++ p ++ [LF])) ∧
      (∀ cc, closedOf cc = false →
        ((onBcast user self closedOf topicSets
            (BCASTb ++ [SP] ++ p ++ [LF])).2.map Prod.fst).count cc =
          if cc ≠ self ∧ ∃ m ∈ topicSets, cc ∈ m.map Prod.fst then 1
          else 0)) := by
  constructor
  · intro h
    unfold onBcast
    rw [if_pos h]
  · intro h
    have hstep : onBcast user self closedOf topicSets
        (BCASTb ++ [SP] ++ p ++ [LF]) =
        ([respOk],
          (bcastTargets self closedOf topicSets []).map
            (fun cc => (cc, respEvent ++ user ++ [SP] ++
              (BCASTb ++ [SP] ++ p ++ [LF])))) := by
      unfold onBcast
      rw [if_neg h]
    rw [hstep]
    refine ⟨rfl, ?_, ?_⟩
    · intro e he
      obtain ⟨cc, _, rfl⟩ := List.mem_map.mp he
      rfl
    · intro cc hcc
      have hmm : ((bcastTargets self closedOf topicSets []).map
          (fun cc => (cc, respEvent ++ user ++ [SP] ++
            (BCASTb ++ [SP] ++ p ++ [LF])))).map Prod.fst =
          bcastTargets self closedOf topicSets [] := by
        rw [List.map_map]
        exact List.map_id _
      rw [hmm]
      obtain ⟨tw, tn⟩ := bcastTargets_spec self closedOf topicSets []
      by_cases hcond : cc ≠ self ∧ ∃ m ∈ topicSets, cc ∈ m.map Prod.fst
      · rw [if_pos hcond]
        exact List.count_eq_one_of_mem tn
          ((tw cc).mpr ⟨hcc, hcond.1, List.not_mem_nil cc, hcond.2⟩)
      · rw [if_neg hcond]
        refine List.count_eq_zero_of_not_mem ?_
        intro hmem
        obtain ⟨h1, h2, h3, h4⟩ := (tw cc).mp hmem
        exact hcond ⟨h2, h4⟩

theorem C6_witness :
    ((onBcast [102] 1 (fun _ => false)
        [[(1, true), (2, false)], [(2, true), (3, false)]]
        (BCASTb ++ [SP] ++ [104] ++ [LF])).2.map Prod.fst).count 2 = 1 ∧
    ((onBcast [102] 1 (fun _ => false)
        [[(1, true), (2, false)], [(2, true), (3, false)]]
        (BCASTb ++ [SP] ++ [104] ++ [LF])).2.map Prod.fst).count 1 = 0 := by
  have h := (C6_broadcast [102] 1 (fun _ => false)
      [[(1, true), (2, false)], [(2, true), (3, false)]] [104]).2 (by decide)
  constructor
  · have h2 := h.2.2 2 rfl
    rw [if_pos] at h2
    · exact h2
    · exact ⟨by decide, [(1, true), (2, false)], by simp, by decide⟩
  · have h1 := h.2.2 1 rfl
    rw [if_neg] at h1
    · exact h1
    · rintro ⟨hne, _⟩
      exact hne rfl

/-! ### Claim C7 -/

/-- C7: for an MCAST of payload `p` to topic `n` (raw message
`MCAST <n> <p>\n`), the sender always gets `200\n`, whether or not the
topic exists; when the topic is absent no event is written to anyone;
when it exists, each open connection other than the sender receives the
event `000 <user> MCAST <n> <p>\n` iff it is a member of the topic, and
every emitted write targets such a connection with exactly those bytes. -/
theorem C7_mcast (user : Bytes) (self : ConnId) (closedOf : ConnId → Bool)
    (ts : Registry) (n : Bytes) (p : Bytes) :
    (onMcast user self closedOf ts n
        (MCASTb ++ [SP] ++ n ++ [SP] ++ p ++ [LF])).1 = [respOk] ∧
    (ts.lookup n = none →
      (onMcast user self closedOf ts n
        (MCASTb ++ [SP] ++ n ++ [SP] ++ p ++ [LF])).2 = []) ∧
    (∀ m, ts.lookup n = some m →
      (∀ cc, closedOf cc = false → cc ≠ self →
        ((cc, respEvent ++ user ++ [SP] ++
            (MCASTb ++ [SP] ++ n ++ [SP] ++ p ++ [LF])) ∈
          (onMcast user self closedOf ts n
            (MCASTb ++ [SP] ++ n ++ [SP] ++ p ++ [LF])).2 ↔
          cc ∈ m.map Prod.fst)) ∧
      (∀ e ∈ (onMcast user self closedOf ts n
          (MCASTb ++ [SP] ++ n ++ [SP] ++ p ++ [LF])).2,
        e.2 = respEvent ++ user ++ [SP] ++
            (MCASTb ++ [SP] ++ n ++ [SP] ++ p ++ [LF]) ∧
        e.1 ≠ self ∧ closedOf e.1 = false ∧ e.1 ∈ m.map Prod.fst)) := by
  refine ⟨?_, ?_, ?_⟩
  · unfold onMcast
    cases ts.lookup n <;> rfl
  · intro h
    unfold onMcast
    rw [h]
  · intro m hm
    have hstep : onMcast user self closedOf ts n
        (MCASTb ++ [SP] ++ n ++ [SP] ++ p ++ [LF]) =
        ([respOk],
          (m.filter (fun e => !closedOf e.1 && e.1 != self)).map
            (fun e => (e.1, respEvent ++ user ++ [SP] ++
              (MCASTb ++ [SP] ++ n ++ [SP] ++ p ++ [LF])))) := by
      unfold onMcast
      rw [hm]
    rw [hstep]
    constructor
    · intro cc hcc hne
      constructor
      · intro hmem
        obtain ⟨e, he, heq⟩ := List.mem_map.mp hmem
        obtain ⟨he1, _⟩ := List.mem_filter.mp he
        have : e.1 = cc := congrArg Prod.fst heq
        rw [← this]
        exact List.mem_map.mpr ⟨e, he1, rfl⟩
      · intro hmem
        obtain ⟨e, he, he1⟩ := List.mem_map.mp hmem
        refine List.mem_map.mpr ⟨e, List.mem_filter.mpr ⟨he, ?_⟩, by rw [he1]⟩
        rw [he1]
        simp [hcc, hne]
    · intro e he
      obtain ⟨e0, he0, rfl⟩ := List.mem_map.mp he
      obtain ⟨hmem, hcond⟩ := List.mem_filter.mp he0
      have hcond2 : closedOf e0.1 = false ∧ e0.1 ≠ self := by simpa using hcond
      exact ⟨rfl, hcond2.2, hcond2.1, List.mem_map.mpr ⟨e0, hmem, rfl⟩⟩

theorem C7_witness :
    (onMcast [102] 1 (fun _ => false)
        [([99], [(1, true), (2, false)])] [99]
        (MCASTb ++ [SP] ++ [99] ++ [SP] ++ [104] ++ [LF])).1 = [respOk] ∧
    ((2, respEvent ++ [102] ++ [SP] ++
        (MCASTb ++ [SP] ++ [99] ++ [SP] ++ [104] ++ [LF])) ∈
      (onMcast [102] 1 (fun _ => false)
        [([99], [(1, true), (2, false)])] [99]
        (MCASTb ++ [SP] ++ [99] ++ [SP] ++ [104] ++ [LF])).2) ∧
    (onMcast [102] 1 (fun _ => false) [([99], [(1, true), (2, false)])] [97]
        (MCASTb ++ [SP] ++ [97] ++ [SP] ++ [104] ++ [LF])).2 = [] := by
  refine ⟨(C7_mcast [102] 1 (fun _ => false)
      [([99], [(1, true), (2, false)])] [99] [104]).1, ?_, ?_⟩
  · exact (((C7_mcast [102] 1 (fun _ => false)
      [([99], [(1, true), (2, false)])] [99] [104]).2.2
        [(1, true), (2, false)] (by decide)).1 2 rfl (by decide)).mpr (by decide)
  · exact (C7_mcast [102] 1 (fun _ => false)
      [([99], [(1, true), (2, false)])] [97] [104]).2.1 (by decide)

/-! ### Claim C2 -/

theorem getD_replicate_append (k i a : Nat) (l : List Nat) (h : i < k) :
    (List.replicate k a ++ l).getD i 0 = a := by
  rw [List.getD_append _ _ _ _ (by simpa using h)]
  rw [List.getD_eq_getElem _ _ (by simpa using h)]
  simp

theorem fieldLoop_exhaust (delim valid : Nat → Bool) (buf : Bytes) (r : Nat) :
    ∀ (fuel n : Nat),
      (∀ i, i < fuel → r + n + i + 1 ≤ buf.length ∧
        delim (buf.getD (r + n + i) 0) = false ∧
        valid (buf.getD (r + n + i) 0) = true) →
      fieldLoop delim valid buf r n fuel = .error .invalidMessage := by
  intro fuel
  induction fuel with
  | zero => intro n _; rfl
  | succ fuel ih =>
    intro n h
    obtain ⟨hl0, hd0, hv0⟩ := h 0 (Nat.succ_pos fuel)
    simp only [Nat.add_zero] at hl0 hd0 hv0
    have hd0p := hd0
    rw [List.getD_eq_getElem?_getD] at hd0p
    show fieldLoop delim valid buf r n (fuel + 1) = .error .invalidMessage
    unfold fieldLoop
    rw [if_neg (by omega), if_neg (by simp [hd0p]), if_pos hv0]
    refine ih (n + 1) ?_
    intro i hi
    have harith : r + (n + 1) + i = r + n + (i + 1) := by omega
    rw [harith]
    have := h (i + 1) (by omega)
    exact ⟨by omega, this.2.1, this.2.2⟩

theorem decodeTextPayload_overLimit (p rest : Bytes)
    (hp : ∀ b ∈ p, 3 < b ∧ b ≠ LF) (hlen : p.length = 1024) :
    Dec.decodePayload ⟨p ++ rest, 0, 0⟩ = .error .invalidMessage := by
  have hfail : fieldLoop (fun c => c == LF) (fun c => decide (3 < c))
      (p ++ rest) 0 0 MaxPayloadLength = .error .invalidMessage := by
    refine fieldLoop_exhaust _ _ _ _ MaxPayloadLength 0 ?_
    intro i hi
    have hi2 : i < p.length := by rw [hlen]; exact hi
    have hb : (p ++ rest).getD (0 + 0 + i) 0 = p.getD i 0 := by
      have h00 : (0 + 0 + i) = i := by omega
      rw [h00]
      exact List.getD_append _ _ _ _ hi2
    have hmem : p.getD i 0 ∈ p := by
      rw [List.getD_eq_getElem _ _ hi2]
      exact List.getElem_mem hi2
    obtain ⟨hgt, hne⟩ := hp _ hmem
    have hlp : (p ++ rest).length = p.length + rest.length :=
      List.length_append p rest
    have hnep := hne
    have hgtp := hgt
    rw [List.getD_eq_getElem?_getD] at hnep hgtp
    refine ⟨by omega, ?_, ?_⟩
    · rw [hb]; simp [hnep]
    · rw [hb]; simp [hgtp]
  unfold Dec.decodePayload
  rw [if_neg (by simp [Dec.atEnd])]
  have hlp : (p ++ rest).length = p.length + rest.length :=
    List.length_append p rest
  dsimp only
  rw [if_neg (by omega)]
  have h0len : 0 < p.length := by omega
  have hc : (p ++ rest).getD 0 0 = p.getD 0 0 :=
    List.getD_append _ _ _ _ h0len
  have hcmem : p.getD 0 0 ∈ p := by
    rw [List.getD_eq_getElem _ _ h0len]
    exact List.getElem_mem h0len
  have hc3 : ¬ ((p ++ rest).getD 0 0 ≤ 3) := by
    rw [hc]
    have := (hp _ hcmem).1
    omega
  rw [if_neg hc3]
  unfold Dec.decodeTextPayload
  rw [hfail]

/-- C2: the decoder rejects fields of exactly the documented limits: a
16-uppercase-letter verb followed by LF, a 64-byte identifier followed by
LF, and a 1024-byte text payload followed by LF all fail with
invalid-message, because each scanning loop runs `n < Max` and never
reaches the delimiter of a maximum-length field (the accepted ranges are
1..15, 1..63 and 1..1023; see the companion success theorems). -/
theorem C2_limit_fields_rejected :
    Dec.decodeVerb ⟨List.replicate 16 65 ++ [LF], 0, 0⟩ =
      .error .invalidMessage ∧
    Dec.decodeId ⟨List.replicate 64 97 ++ [LF], 0, 0⟩ =
      .error .invalidMessage ∧
    Dec.decodePayload ⟨List.replicate 1024 97 ++ [LF], 0, 0⟩ =
      .error .invalidMessage := by
  refine ⟨by decide, by decide, ?_⟩
  refine decodeTextPayload_overLimit (List.replicate 1024 97) [LF] ?_ ?_
  · intro b hb
    rw [List.eq_of_mem_replicate hb]
    exact ⟨by omega, by decide⟩
  · rw [List.length_replicate]

theorem fieldLoop_success (delim valid : Nat → Bool) (buf : Bytes)
    (r len : Nat) (hbuf : r + len + 1 ≤ buf.length)
    (hdel : delim (buf.getD (r + len) 0) = true) (hpos : 0 < len) :
    ∀ (fuel n : Nat), n ≤ len → len - n < fuel →
      (∀ i, n ≤ i → i < len → delim (buf.getD (r + i) 0) = false ∧
        valid (buf.getD (r + i) 0) = true) →
      fieldLoop delim valid buf r n fuel =
        .ok ((buf.drop r).take len, r + len + 1) := by
  intro fuel
  induction fuel with
  | zero => intro n _ h2 _; exact absurd h2 (by omega)
  | succ fuel ih =>
    intro n hn hf h
    show fieldLoop delim valid buf r n (fuel + 1) =
      .ok ((buf.drop r).take len, r + len + 1)
    unfold fieldLoop
    rw [if_neg (by omega)]
    by_cases heq : n = len
    · subst heq
      have hdelp := hdel
      rw [List.getD_eq_getElem?_getD] at hdelp
      rw [if_pos (by simp [hdelp]), if_neg (by simp; omega)]
    · have hn2 : n < len := by omega
      obtain ⟨hd, hv⟩ := h n (Nat.le_refl n) hn2
      have hdp := hd
      rw [List.getD_eq_getElem?_getD] at hdp
      rw [if_neg (by simp [hdp]), if_pos hv]
      exact ih (n + 1) (by omega) (by omega)
        (fun i hi1 hi2 => h i (by omega) hi2)

theorem verbChar_not_delim {b : Nat} (h : verbCharset b = true) :
    isDelim b = false := by
  simp only [verbCharset, Bool.and_eq_true, decide_eq_true_eq] at h
  simp only [isDelim, SP, LF]
  simp only [Bool.or_eq_false_iff, beq_eq_false_iff_ne]
  omega

theorem idChar_not_delim {b : Nat} (h : idCharset b = true) :
    isDelim b = false := by
  simp only [idCharset, Bool.or_eq_true, Bool.and_eq_true,
    decide_eq_true_eq, beq_iff_eq] at h
  simp only [isDelim, SP, LF]
  simp only [Bool.or_eq_false_iff, beq_eq_false_iff_ne]
  omega

/-- Companion to C2: DecodeVerb accepts every verb of 1 to 15 uppercase
letters followed by a delimiter (the actual upper bound of the loop). -/
theorem decodeVerb_success (v rest : Bytes) (dl : Nat)
    (hv : ∀ b ∈ v, verbCharset b = true)
    (h1 : 1 ≤ v.length) (h15 : v.length ≤ 15) (hdl : isDelim dl = true) :
    Dec.decodeVerb ⟨v ++ dl :: rest, 0, 0⟩ =
      .ok (v, ⟨v ++ dl :: rest, 0, v.length + 1⟩) := by
  unfold Dec.decodeVerb
  rw [if_neg (by simp [Dec.atEnd])]
  have hs : fieldLoop isDelim verbCharset (v ++ dl :: rest) 0 0 MaxVerbLength =
      .ok (((v ++ dl :: rest).drop 0).take v.length, 0 + v.length + 1) := by
    refine fieldLoop_success isDelim verbCharset (v ++ dl :: rest) 0 v.length
      (by simp) ?_ (by omega) MaxVerbLength 0 (by omega)
      (by unfold MaxVerbLength; omega) ?_
    · rw [Nat.zero_add, List.getD_append_right _ _ _ _ (Nat.le_refl _)]
      simpa using hdl
    · intro i hi0 hilen
      rw [Nat.zero_add, List.getD_append _ _ _ _ hilen,
        List.getD_eq_getElem _ _ hilen]
      have hmem : v[i] ∈ v := List.getElem_mem hilen
      exact ⟨verbChar_not_delim (hv _ hmem), hv _ hmem⟩
  rw [hs]
  rw [List.drop_zero, List.take_left, Nat.zero_add]

/-- Companion to C2: DecodeId accepts every identifier of 1 to 63
IDENTIFIER-charset bytes followed by a delimiter. -/
theorem decodeId_success (v rest : Bytes) (dl : Nat)
    (hv : ∀ b ∈ v, idCharset b = true)
    (h1 : 1 ≤ v.length) (h63 : v.length ≤ 63) (hdl : isDelim dl = true) :
    Dec.decodeId ⟨v ++ dl :: rest, 0, 0⟩ =
      .ok (v, ⟨v ++ dl :: rest, 0, v.length + 1⟩) := by
  unfold Dec.decodeId
  rw [if_neg (by simp [Dec.atEnd])]
  have hs : fieldLoop isDelim idCharset (v ++ dl :: rest) 0 0
      MaxIdentifierLength =
      .ok (((v ++ dl :: rest).drop 0).take v.length, 0 + v.length + 1) := by
    refine fieldLoop_success isDelim idCharset (v ++ dl :: rest) 0 v.length
      (by simp) ?_ (by omega) MaxIdentifierLength 0 (by omega)
      (by unfold MaxIdentifierLength; omega) ?_
    · rw [Nat.zero_add, List.getD_append_right _ _ _ _ (Nat.le_refl _)]
      simpa using hdl
    · intro i hi0 hilen
      rw [Nat.zero_add, List.getD_append _ _ _ _ hilen,
        List.getD_eq_getElem _ _ hilen]
      have hmem : v[i] ∈ v := List.getElem_mem hilen
      exact ⟨idChar_not_delim (hv _ hmem), hv _ hmem⟩
  rw [hs]
  rw [List.drop_zero, List.take_left, Nat.zero_add]

/-- Companion to C2: text-mode DecodePayload accepts every payload of 1 to
1023 bytes (no byte in 0x00..0x03, no LF) followed by LF. -/
theorem decodeTextPayload_success (p rest : Bytes)
    (hp : ∀ b ∈ p, 3 < b ∧ b ≠ LF)
    (h1 : 1 ≤ p.length) (hmax : p.length ≤ 1023) :
    Dec.decodePayload ⟨p ++ LF :: rest, 0, 0⟩ =
      .ok (p, ⟨p ++ LF :: rest, 0, p.length + 1⟩) := by
  unfold Dec.decodePayload
  rw [if_neg (by simp [Dec.atEnd])]
  rw [if_neg (by simp)]
  dsimp only
  have h0len : 0 < p.length := h1
  have hc : (p ++ LF :: rest).getD 0 0 = p.getD 0 0 := by
    rw [List.getD_append _ _ _ _ h0len]
  have hcmem : p.getD 0 0 ∈ p := by
    rw [List.getD_eq_getElem _ _ h0len]
    exact List.getElem_mem h0len
  have hc3 : ¬ ((p ++ LF :: rest).getD 0 0 ≤ 3) := by
    rw [hc]
    have := (hp _ hcmem).1
    omega
  rw [if_neg hc3]
  unfold Dec.decodeTextPayload
  have hs : fieldLoop (fun c => c == LF) (fun c => decide (3 < c))
      (p ++ LF :: rest) 0 0 MaxPayloadLength =
      .ok (((p ++ LF :: rest).drop 0).take p.length, 0 + p.length + 1) := by
    refine fieldLoop_success _ _ (p ++ LF :: rest) 0 p.length
      (by simp) ?_ (by omega) MaxPayloadLength 0 (by omega)
      (by unfold MaxPayloadLength; omega) ?_
    · rw [Nat.zero_add, List.getD_append_right _ _ _ _ (Nat.le_refl _)]
      simp
    · intro i hi0 hilen
      rw [Nat.zero_add, List.getD_append _ _ _ _ hilen,
        List.getD_eq_getElem _ _ hilen]
      have hmem : p[i] ∈ p := List.getElem_mem hilen
      obtain ⟨hgt, hne⟩ := hp _ hmem
      constructor
      · simp [hne]
      · simp [hgt]
  rw [hs]
  rw [List.drop_zero, List.take_left, Nat.zero_add]

/-! ### Claim C5 -/

/-- C5: when the next byte `b0` is in `0x00..0x03` (the binary-payload
guard of DecodePayload) and `b1` is the following byte (a Go byte, hence
at most 255), DecodePayload consumes the two header bytes and then exactly
`n = 1 + (b0 << 8) + b1` raw payload bytes followed by LF, returning the
raw payload with the header excluded; when the byte at the computed end
position is not LF it fails with invalid-message. -/
theorem C5_decodePayload_binary (d : Dec) (n : Nat)
    (hend : d.atEnd = false)
    (hb0 : d.buf.getD d.r 0 ≤ 3)
    (hb1 : d.buf.getD (d.r + 1) 0 ≤ 255)
    (hn : n = 1 + d.buf.getD d.r 0 * 256 + d.buf.getD (d.r + 1) 0)
    (hlen : d.r + n + 3 ≤ d.buf.length) :
    (d.buf.getD (d.r + n + 2) 0 = LF →
      d.decodePayload = .ok ((d.buf.drop (d.r + 2)).take n,
        { d with r := d.r + n + 3 })) ∧
    (d.buf.getD (d.r + n + 2) 0 ≠ LF →
      d.decodePayload = .error .invalidMessage) := by
  have hbin : decodeBinaryPayload d.buf d.r =
      (if d.buf.getD (d.r + n + 2) 0 = LF then .ok n
       else .error .invalidMessage) := by
    unfold decodeBinaryPayload
    rw [show 1 + d.buf.getD d.r 0 * 256 + d.buf.getD (d.r + 1) 0 = n
      from hn.symm]
    rw [if_neg (by unfold MaxPayloadLength; omega)]
    rw [if_neg (by unfold BinaryPayloadHdr; omega)]
    by_cases hlf : d.buf.getD (d.r + n + 2) 0 = LF
    · have hlfp := hlf
      rw [List.getD_eq_getElem?_getD] at hlfp
      rw [if_pos hlf]
      rw [if_neg (by simp [BinaryPayloadHdr, hlfp])]
    · have hlfp := hlf
      rw [List.getD_eq_getElem?_getD] at hlfp
      rw [if_neg hlf]
      rw [if_pos (by simp only [BinaryPayloadHdr]; simpa using hlfp)]
  have hsteps : d.decodePayload =
      (match decodeBinaryPayload d.buf d.r with
       | .error e => .error e
       | .ok k =>
          .ok ((d.buf.drop (d.r + BinaryPayloadHdr)).take k,
            { d with r := d.r + k + BinaryPayloadHdr + 1 })) := by
    unfold Dec.decodePayload
    rw [if_neg (by simp [hend]), if_neg (by omega)]
    dsimp only
    rw [if_pos hb0]
  constructor
  · intro hlf
    rw [hsteps, hbin, if_pos hlf]
    rfl
  · intro hlf
    rw [hsteps, hbin, if_neg hlf]

theorem C5_witness :
    Dec.decodePayload ⟨[0, 0, 65, 10], 0, 0⟩ =
      .ok ([65], ⟨[0, 0, 65, 10], 0, 4⟩) ∧
    Dec.decodePayload ⟨[0, 3, 104, 101, 108, 108, 111, 10], 0, 0⟩ =
      .error .invalidMessage := by
  constructor
  · have h := (C5_decodePayload_binary ⟨[0, 0, 65, 10], 0, 0⟩ 1 rfl
      (by decide) (by decide) (by decide) (by decide)).1 (by decide)
    exact h
  · have h := (C5_decodePayload_binary
      ⟨[0, 3, 104, 101, 108, 108, 111, 10], 0, 0⟩ 4 rfl
      (by decide) (by decide) (by decide) (by decide)).2 (by decide)
    exact h

/-! ### Claim C10 -/

/-- The body of decodeBinaryPayload with the over-length guard
(`n > MaxPayloadLength`) removed. -/
def decodeBinaryPayloadNoCap (buf : Bytes) (r : Nat) : Except DecErr Nat :=
  let n := 1 + (buf.getD r 0) * 256 + buf.getD (r + 1) 0
  if buf.length < r + n + BinaryPayloadHdr + 1 then .error .endOfStream
  else if buf.getD (r + n + BinaryPayloadHdr) 0 != LF then
    .error .invalidMessage
  else .ok n

/-- C10: when the first header byte is in `0x00..0x03` — which DecodePayload
guarantees on every call into decodeBinaryPayload — and the second header
byte is a Go byte (at most 255), the computed length `1 + (b0 << 8) + b1`
lies in 1..1024, so the over-length invalid-message branch is unreachable:
decodeBinaryPayload behaves exactly like the variant without that guard. -/
theorem C10_overlength_unreachable (buf : Bytes) (r : Nat)
    (hb0 : buf.getD r 0 ≤ 3) (hb1 : buf.getD (r + 1) 0 ≤ 255) :
    1 ≤ 1 + buf.getD r 0 * 256 + buf.getD (r + 1) 0 ∧
    1 + buf.getD r 0 * 256 + buf.getD (r + 1) 0 ≤ MaxPayloadLength ∧
    decodeBinaryPayload buf r = decodeBinaryPayloadNoCap buf r := by
  refine ⟨by omega, by unfold MaxPayloadLength; omega, ?_⟩
  unfold decodeBinaryPayload decodeBinaryPayloadNoCap
  dsimp only
  rw [if_neg (by unfold MaxPayloadLength; omega)]

theorem C10_witness :
    decodeBinaryPayload [3, 255, 97, 10] 0 =
      decodeBinaryPayloadNoCap [3, 255, 97, 10] 0 :=
  (C10_overlength_unreachable [3, 255, 97, 10] 0 (by decide) (by decide)).2.2

end Lipwig

